import Mathlib

/-!
Verification of the Timed Audio Synthesis & Timeline Reassembly Engine
(`video_dubber`): a shallow embedding of `services/tts.py`,
`utils/concurrency.py`, `pipeline.py` and `media/video.py`, with theorems
settling the specification claims about job building, bounded synthesis,
duration fitting, and timeline compositing.

Python floats are modelled as rationals (`ℚ`), file paths and text as
`String`, file contents as byte lists (`List ℕ`), and canonical-format
audio as sample lists (`List ℤ`).  External effects (the TTS provider,
`ffmpeg` probe/re-encode, `pydub` silence) are environment parameters;
an exception raised by an external tool and caught by the code is
modelled by the corresponding environment function returning `none`.
-/

/-! ## Numeric primitives: Python's `int`, `math.ceil` and division on ℚ -/

/-- Floor of a rational as an integer, computably: `q.num / q.den` with the
integer division `/` (euclidean division; the denominator is positive, so
this is the mathematical floor). -/
def ratFloor (q : ℚ) : ℤ :=
  q.num / q.den

/-- Ceiling of a rational, computably, as `-⌊-q⌋`. Models `math.ceil`. -/
def ratCeil (q : ℚ) : ℤ :=
  -ratFloor (-q)

/-- Python's `int(x)`: truncation toward zero. -/
def pyInt (q : ℚ) : ℤ :=
  if q < 0 then ratCeil q else ratFloor q

/-! ## Data model (`models.py`)

`TranscriptSegment.endTime` models the Python field `end` (a Lean keyword).
-/

/-- A single transcription chunk (`models.TranscriptSegment`). -/
structure TranscriptSegment where
  start : ℚ
  endTime : ℚ
  text : String
  deriving DecidableEq

/-- An audio clip that needs to be synthesized (`models.AudioRenderTask`).
`output_path` holds the file name produced by `create_render_tasks`. -/
structure AudioRenderTask where
  segment : TranscriptSegment
  instruction : Option String
  voice : String
  output_path : String
  deriving DecidableEq

/-- A synthesized audio clip and its placement (`models.RenderedAudioSegment`).
`endTime` models the Python field `end`. -/
structure RenderedAudioSegment where
  audio_path : String
  start : ℚ
  endTime : ℚ
  deriving DecidableEq

/-! ## Python `str.strip` -/

/-- Remove leading and trailing whitespace from a character list. -/
def stripChars (cs : List Char) : List Char :=
  ((cs.dropWhile Char.isWhitespace).reverse.dropWhile Char.isWhitespace).reverse

/-- Python's `str.strip()`. -/
def pyStrip (s : String) : String :=
  String.mk (stripChars s.data)

/-! ## The filesystem model

A filesystem maps a path to `none` (no such file) or to the file's bytes.
-/

/-- Filesystem state: path ↦ file bytes. -/
def FileSys : Type :=
  String → Option (List ℕ)

/-- Write (create or overwrite) a file. -/
def updateFs (fs : FileSys) (p : String) (bytes : List ℕ) : FileSys :=
  fun q => if q = p then some bytes else fs q

/-- `task.output_path.exists() and task.output_path.stat().st_size > 0`
(tts.py line 89). -/
def fileExistsNonEmpty (fs : FileSys) (p : String) : Bool :=
  match fs p with
  | none => false
  | some bytes => decide (0 < bytes.length)

/-! ## Duration fitting (`tts.py` lines 110-134)

`fitClip` is the decision logic of the duration-fitting block: given the
measured duration of the synthesized file (`none` when `ffmpeg.probe`
raised, which the code catches), the target slot length and the configured
maximum speed-up factor, it returns `some effective` exactly when the code
re-encodes the file with `atempo=effective`, and `none` when the file is
left unchanged. -/
def fitClip (measured : Option ℚ) (targetDuration : ℚ) (maxSpeedupFactor : ℚ) :
    Option ℚ :=
  match measured with
  | none => none
  | some currentDuration =>
    if targetDuration < currentDuration then
      let speedupFactor := currentDuration / targetDuration
      let effectiveSpeedup := min speedupFactor maxSpeedupFactor
      if 1.01 < effectiveSpeedup then some effectiveSpeedup else none
    else none

/-- Default of the `max_speedup_factor` parameter of `TextToSpeechService`
(tts.py line 26); the pipeline constructs the service without overriding it. -/
def defaultMaxSpeedupFactor : ℚ :=
  1.3

/-! ## The synthesizer (`TextToSpeechService.synthesize`, tts.py lines 82-139) -/

/-- External-effect environment for one synthesis call.
 * `ttsBytes`: the audio the TTS provider streams for this job's text;
 * `probe`: `ffmpeg.probe` duration of a file's bytes, `none` when it
   raises (the exception is caught at tts.py line 136);
 * `compress`: the `atempo` re-encode of a file at a given factor, `none`
   when `ffmpeg.run` raises (also caught);
 * `silence`: `AudioSegment.silent(duration=ms)` exported bytes. -/
structure TtsEnv where
  ttsBytes : List ℕ
  probe : List ℕ → Option ℚ
  compress : List ℕ → ℚ → Option (List ℕ)
  silence : ℕ → List ℕ
  maxSpeedupFactor : ℚ

/-- The observable outcome of one `synthesize` call: the filesystem after
the call, how many TTS-provider requests were made, the returned path, and
whether the time-compression re-encode replaced the file. -/
structure SynthOutcome where
  fs : FileSys
  ttsCalls : ℕ
  result : String
  timeCompressed : Bool

/-- `max(1, int((task.segment.end - task.segment.start) * 1000))`
(tts.py line 93): duration in ms of the silent clip for empty text. -/
def silenceMs (segment : TranscriptSegment) : ℕ :=
  max 1 (pyInt ((segment.endTime - segment.start) * 1000)).toNat

/-- `TextToSpeechService.synthesize` (tts.py lines 82-139): idempotent skip
when the output exists non-empty; a silent clip for empty text; otherwise a
TTS call streamed to the output path followed by the duration-fitting block
(whose failures are caught and leave the freshly written file in place). -/
def synthesize (env : TtsEnv) (fs : FileSys) (task : AudioRenderTask) :
    SynthOutcome :=
  let text := pyStrip task.segment.text
  if fileExistsNonEmpty fs task.output_path then
    { fs := fs, ttsCalls := 0, result := task.output_path, timeCompressed := false }
  else if text = String.mk [] then
    { fs := updateFs fs task.output_path (env.silence (silenceMs task.segment)),
      ttsCalls := 0, result := task.output_path, timeCompressed := false }
  else
    let fs1 := updateFs fs task.output_path env.ttsBytes
    let targetDuration := task.segment.endTime - task.segment.start
    match fitClip (env.probe env.ttsBytes) targetDuration env.maxSpeedupFactor with
    | none =>
      { fs := fs1, ttsCalls := 1, result := task.output_path, timeCompressed := false }
    | some effectiveSpeedup =>
      match env.compress env.ttsBytes effectiveSpeedup with
      | none =>
        { fs := fs1, ttsCalls := 1, result := task.output_path, timeCompressed := false }
      | some compressedBytes =>
        { fs := updateFs fs1 task.output_path compressedBytes,
          ttsCalls := 1, result := task.output_path, timeCompressed := true }

/-- Sequential model of running `synthesize` over a job list: the final
filesystem and the total number of TTS-provider calls.  (Each job reads and
writes only its own output path, so any interleaving of the bounded
concurrency gives the same per-path results; the call count is
order-independent.) -/
def runAll (env : TtsEnv) : FileSys → List AudioRenderTask → FileSys × ℕ
  | fs, [] => (fs, 0)
  | fs, task :: rest =>
    let r := synthesize env fs task
    let remaining := runAll env r.fs rest
    (remaining.1, r.ttsCalls + remaining.2)

/-! ## Render job builder (`TextToSpeechService.create_render_tasks`,
tts.py lines 34-80)

The output file name for the segment at index `i` with start time `s` is
the Python f-string `f"{i:04d}_{s:08.3f}.wav"`, joined to the output
directory.  We model decimal formatting from first principles with a
fuel-based digit function so that every definition is kernel-executable.
-/

/-- The ASCII digit character for `d` (meaningful for `d < 10`). -/
def digitChar (d : ℕ) : Char :=
  Char.ofNat (48 + d)

/-- Little-endian decimal digits of `n`, with explicit fuel (`fuel ≥ n`
suffices); structural recursion keeps it kernel-reducible. -/
def decDigitsAux : ℕ → ℕ → List ℕ
  | 0, _ => []
  | _ + 1, 0 => []
  | fuel + 1, n + 1 => (n + 1) % 10 :: decDigitsAux fuel ((n + 1) / 10)

/-- Little-endian decimal digits of `n` (empty for `0`). -/
def decDigits (n : ℕ) : List ℕ :=
  decDigitsAux n n

/-- The decimal notation of `n` as characters, most significant first;
models Python's `str(n)` for a natural number. -/
def decChars (n : ℕ) : List Char :=
  if n = 0 then [Char.ofNat 48] else (decDigits n).reverse.map digitChar

/-- Left-pad a character list with zeros to width `w`; models the `0`-fill
of a Python format spec such as `04d`. -/
def zeroPadC (w : ℕ) (cs : List Char) : List Char :=
  List.replicate (w - cs.length) (Char.ofNat 48) ++ cs

/-- Rounding to the nearest integer, computably (`⌊q + 1/2⌋`). -/
def ratRound (q : ℚ) : ℤ :=
  ratFloor (q + 1 / 2)

/-- Python's `f"{q:.3f}"` digits (modelled at rational precision: the
value is rounded to the nearest multiple of 1/1000). -/
def fixed3Chars (q : ℚ) : List Char :=
  let m : ℤ := ratRound (q * 1000)
  let n : ℕ := m.natAbs
  let core := decChars (n / 1000) ++ Char.ofNat 46 :: zeroPadC 3 (decChars (n % 1000))
  if m < 0 then Char.ofNat 45 :: zeroPadC 7 core else core

/-- Python's `f"{q:08.3f}"`: fixed 3 decimals, zero-filled to width 8. -/
def fmtStart8 (q : ℚ) : List Char :=
  let m : ℤ := ratRound (q * 1000)
  if m < 0 then fixed3Chars q else zeroPadC 8 (fixed3Chars q)

/-- Characters of the file name `f"{index:04d}_{start:08.3f}.wav"`
(tts.py line 49). -/
def filenameChars (index : ℕ) (start : ℚ) : List Char :=
  zeroPadC 4 (decChars index) ++
    Char.ofNat 95 :: (fmtStart8 start ++ [Char.ofNat 46, Char.ofNat 119, Char.ofNat 97, Char.ofNat 118])

/-- The full output path `output_dir / filename` (tts.py line 50), with the
directory joined by `/`. -/
def outputPath (outputDir : String) (index : ℕ) (start : ℚ) : String :=
  String.mk (outputDir.data ++ Char.ofNat 47 :: filenameChars index start)

/-- The applied narration instruction (tts.py lines 44-45): the override if
non-empty after stripping, else the configured instruction; a falsy (empty)
result becomes `None`, a truthy one is stripped. -/
def appliedInstruction (instructionOverride : Option String)
    (configured : Option String) : Option String :=
  let o := pyStrip (instructionOverride.getD (String.mk []))
  let a : Option String := if o = String.mk [] then configured else some o
  match a with
  | none => none
  | some s => if s = String.mk [] then none else some (pyStrip s)

/-- The task list built by the `for index, segment in enumerate(segments)`
loop of tts.py lines 48-78, starting at index `k`. -/
def buildTasks (outputDir : String) (voice : String) (instr : Option String) :
    ℕ → List TranscriptSegment → List AudioRenderTask
  | _, [] => []
  | k, segment :: rest =>
    { segment := segment, instruction := instr, voice := voice,
      output_path := outputPath outputDir k segment.start } ::
      buildTasks outputDir voice instr (k + 1) rest

/-- `TextToSpeechService.create_render_tasks` (tts.py lines 34-80): one
`AudioRenderTask` per segment, in order, with deterministic output paths.
(Directory creation and the diagnostic `save_prompt` snapshot have no
bearing on the returned list and are not modelled.) -/
def create_render_tasks (segments : List TranscriptSegment) (outputDir : String)
    (voice : String) (instructionOverride : Option String)
    (configured : Option String) : List AudioRenderTask :=
  buildTasks outputDir voice (appliedInstruction instructionOverride configured) 0 segments

/-! ## Bounded gather and the pipeline's clip list
(`utils/concurrency.py`, `pipeline.py`)

`bounded_gather` appends each task's result to a shared list as the task
completes, so its return value is in *completion* order; we model the
nondeterministic completion order as an explicit list of indices.
`pipeline.run` (lines 66-73) discards that return value and rebuilds the
`RenderedAudioSegment` list from the original `render_tasks` list. -/

/-- `bounded_gather` (concurrency.py lines 12-23): the result list holds
the tasks' results in the order the tasks completed.  `results i` is the
value task `i` produces; `completionOrder` is the order completions
occurred (some permutation of the task indices). -/
def bounded_gather (results : List α) (completionOrder : List ℕ) : List α :=
  completionOrder.filterMap fun i => results.get? i

/-- The clip a finished render task contributes to the assembly plan
(pipeline.py lines 66-73). -/
def taskClip (task : AudioRenderTask) : RenderedAudioSegment :=
  { audio_path := task.output_path, start := task.segment.start,
    endTime := task.segment.endTime }

/-- The `rendered_segments` list built by `VideoDubbingPipeline.run`
(pipeline.py lines 64-73): `render_audio_segments` awaits
`bounded_gather` over the synthesize coroutines but ignores its
completion-ordered return value and returns `render_tasks` itself; `run`
then maps each task to its `RenderedAudioSegment`.  `results` and
`completionOrder` model the synthesis results and the order in which the
concurrent tasks happened to finish. -/
def planClips (tasks : List AudioRenderTask) (results : List String)
    (completionOrder : List ℕ) : List RenderedAudioSegment :=
  let _gathered := bounded_gather results completionOrder
  tasks.map taskClip

/-! ## Timeline compositor (`VideoEditor.attach_audio_segments`,
video.py lines 25-85)

Canonical-format audio (16-bit signed PCM after
`set_sample_width(2).set_channels(2).set_frame_rate(44100)`) is modelled
as a list of samples (`List ℤ`); `pydub`'s `overlay` is sample-wise
addition saturating at the 16-bit range. -/

/-- Stable insertion of a clip into a list sorted by `start`: the clip goes
before the first element whose `start` is not smaller.  `sortClips` below
is extensionally Python's stable `sorted(..., key=lambda item: item[1])`
(video.py lines 34-37). -/
def insertClip (c : RenderedAudioSegment) :
    List RenderedAudioSegment → List RenderedAudioSegment
  | [] => [c]
  | d :: rest => if d.start < c.start then d :: insertClip c rest else c :: d :: rest

/-- Stable sort of the clip list by `start` ascending (video.py lines 34-37). -/
def sortClips (clips : List RenderedAudioSegment) : List RenderedAudioSegment :=
  clips.foldr insertClip []

/-- `max((end for _, _, end in segment_list), default=0.0)` (video.py line 39). -/
def maxSegmentEnd (clips : List RenderedAudioSegment) : ℚ :=
  clips.foldr (fun c m => max c.endTime m) 0

/-- `VideoEditor._probe_duration` (video.py lines 87-99): the container
duration clamped to be nonnegative, `0.0` when `ffmpeg.probe` raises or
reports nothing usable (`videoProbe = none`). -/
def probeDuration (videoProbe : Option ℚ) : ℚ :=
  match videoProbe with
  | none => 0
  | some d => max 0 d

/-- `total_duration_ms = max(1000, math.ceil(duration_seconds * 1000))`
with `duration_seconds = max(probe, max_segment_end)` (video.py lines 40-41). -/
def totalDurationMs (videoProbe : Option ℚ) (clips : List RenderedAudioSegment) : ℤ :=
  max 1000 (ratCeil (max (probeDuration videoProbe) (maxSegmentEnd clips) * 1000))

/-- Frame index of a millisecond position at the canonical 44100 Hz frame
rate (`pydub`'s `frame_count(ms)` truncated to int). -/
def msToFrames (ms : ℤ) : ℕ :=
  (ms * 44100 / 1000).toNat

/-- 16-bit saturating addition of two samples: `pydub.overlay` mixes by
addition and clips at the dynamic range of the format. -/
def satAdd (a b : ℤ) : ℤ :=
  max (-32768) (min 32767 (a + b))

/-- Overlay `seg` onto `bed` starting at frame `pos`, sample-wise saturating
addition; the bed keeps its length (audio past the bed's end is dropped),
as `pydub`'s `overlay` does. -/
def overlay : List ℤ → List ℤ → ℕ → List ℤ
  | [], _, _ => []
  | bed, [], _ => bed
  | b :: bs, s :: ss, 0 => satAdd b s :: overlay bs ss 0
  | b :: bs, s :: ss, n + 1 => b :: overlay bs (s :: ss) n

/-- `position_ms = max(0, int(start * 1000))` (video.py line 61). -/
def overlayPosMs (start : ℚ) : ℤ :=
  max 0 (pyInt (start * 1000))

/-- The compositor's external state: for each path, the canonical-format
samples of that audio file (`none` when the file does not exist; the
`set_sample_width/set_channels/set_frame_rate` normalization of video.py
lines 54-59 is what makes the samples canonical). -/
structure CompositorEnv where
  audioFiles : String → Option (List ℤ)

/-- One iteration of the mixing loop (video.py lines 50-62): a clip whose
file does not exist is skipped, otherwise its samples are overlaid onto
the bed at its start position. -/
def mixStep (env : CompositorEnv) (bed : List ℤ) (c : RenderedAudioSegment) :
    List ℤ :=
  match env.audioFiles c.audio_path with
  | none => bed
  | some samples => overlay bed samples (msToFrames (overlayPosMs c.start))

/-- The audio-bed construction of `VideoEditor.attach_audio_segments`
(video.py lines 34-62): sort the clips by start, build a silent bed of the
total duration, and fold the mixing loop over the sorted clips.  The
result is the mixdown's samples (the export/remux of lines 64-85 writes
these bytes out unchanged). -/
def attach_audio_segments (env : CompositorEnv) (videoProbe : Option ℚ)
    (clips : List RenderedAudioSegment) : List ℤ :=
  let segment_list := sortClips clips
  let total_duration_ms := totalDurationMs videoProbe segment_list
  let mixdown : List ℤ := List.replicate (msToFrames total_duration_ms) 0
  segment_list.foldl (mixStep env) mixdown

/-! ## Spec-side definition for refinement comparison (claim C1) -/

/-- Modelled from the spec's words (§4.4 step 2): the claimed bed length in
milliseconds, `max(videoDuration, max(clip.end over all clips), 1 ms)`. -/
def specTotalDurationMs (videoDuration : ℚ) (clips : List RenderedAudioSegment) : ℚ :=
  max (max (videoDuration * 1000) (maxSegmentEnd clips * 1000)) 1

/-! ## Concrete instances used by witnesses and counterexamples -/

/-- A concrete output directory. -/
def wDir : String := "out"

/-- A concrete voice identifier. -/
def wVoice : String := "alloy"

/-- A concrete output path. -/
def wPath : String := "p"

/-- A concrete clip path. -/
def wPathA : String := "a"

/-- Another concrete clip path. -/
def wPathB : String := "b"

/-- A concrete non-empty segment text. -/
def wText : String := "hi"

/-- The empty filesystem. -/
def fsEmpty : FileSys := fun _ => none

/-- A filesystem on which every path holds a non-empty file. -/
def fsOne : FileSys := fun _ => some [7]

/-- A synthesis environment whose probe and re-encode always fail. -/
def envW : TtsEnv :=
  { ttsBytes := [7], probe := fun _ => none, compress := fun _ _ => none,
    silence := fun n => List.replicate n 0,
    maxSpeedupFactor := defaultMaxSpeedupFactor }

/-- A segment whose slot is 1.5 ms long and whose text is empty. -/
def segC7 : TranscriptSegment := { start := 0, endTime := 3 / 2000, text := String.mk [] }

/-- The render task for `segC7`. -/
def taskC7 : AudioRenderTask :=
  { segment := segC7, instruction := none, voice := wVoice, output_path := wPath }

/-- A segment with non-empty text. -/
def segText : TranscriptSegment := { start := 0, endTime := 1, text := wText }

/-- The render task for `segText`. -/
def taskText : AudioRenderTask :=
  { segment := segText, instruction := none, voice := wVoice, output_path := wPath }

/-- A segment with empty text and zero-length slot (used to build a long
segment list). -/
def seg0 : TranscriptSegment := { start := 0, endTime := 0, text := String.mk [] }

/-- A segment starting at 0. -/
def segA : TranscriptSegment := { start := 0, endTime := 1, text := wText }

/-- A segment starting at 2. -/
def segB : TranscriptSegment := { start := 2, endTime := 3, text := wText }

/-- A compositor environment with no audio files at all. -/
def envNone : CompositorEnv := { audioFiles := fun _ => none }

/-- A compositor environment holding one-sample clips at `wPathA`/`wPathB`. -/
def envTwo : CompositorEnv :=
  { audioFiles := fun p =>
      if p = wPathA then some [100] else if p = wPathB then some [200] else none }

/-- A clip placed at the start of the timeline. -/
def clipW : RenderedAudioSegment := { audio_path := wPath, start := 0, endTime := 1 }

/-- First overlapping clip (file `wPathA`). -/
def clipA : RenderedAudioSegment := { audio_path := wPathA, start := 0, endTime := 1 }

/-- Second overlapping clip (file `wPathB`). -/
def clipB : RenderedAudioSegment := { audio_path := wPathB, start := 0, endTime := 1 }

/-! ## Digit-string values (for reasoning about the file-name format) -/

/-- Value of a little-endian decimal digit list. -/
def valLE : List ℕ → ℕ
  | [] => 0
  | d :: rest => d + 10 * valLE rest

/-- Numeric value of a big-endian list of ASCII digit characters. -/
def valBE : List Char → ℕ
  | [] => 0
  | c :: rest => (c.toNat - 48) * 10 ^ rest.length + valBE rest

/-- `c` is one of the ten ASCII digit characters. -/
def IsDigitCh (c : Char) : Prop :=
  ∃ d, d < 10 ∧ c = digitChar d

/-! # Theorems -/

/-! ## Numeric helper lemmas -/

theorem ratFloor_eq_floor (q : ℚ) : ratFloor q = ⌊q⌋ :=
  Rat.floor_def.symm

theorem ratCeil_eq_ceil (q : ℚ) : ratCeil q = ⌈q⌉ := by
  rw [ratCeil, ratFloor_eq_floor, Int.floor_neg, neg_neg]

theorem pyInt_eq_floor_of_nonneg {q : ℚ} (h : 0 ≤ q) : pyInt q = ⌊q⌋ := by
  rw [pyInt, if_neg (not_lt.mpr h), ratFloor_eq_floor]

theorem le_ratCeil (q : ℚ) : q ≤ (ratCeil q : ℚ) := by
  rw [ratCeil_eq_ceil]
  exact Int.le_ceil q

theorem ratCeil_le_add_one (q : ℚ) : (ratCeil q : ℚ) ≤ q + 1 := by
  rw [ratCeil_eq_ceil]
  have h := Int.ceil_lt_add_one q
  linarith

theorem updateFs_self (fs : FileSys) (p : String) (bytes : List ℕ) :
    updateFs fs p bytes p = some bytes := by
  simp [updateFs]

/-! ## Branch lemmas for `synthesize` -/

theorem synthesize_of_skip (env : TtsEnv) (fs : FileSys) (task : AudioRenderTask)
    (h : fileExistsNonEmpty fs task.output_path = true) :
    synthesize env fs task
      = { fs := fs, ttsCalls := 0, result := task.output_path,
          timeCompressed := false } := by
  simp [synthesize, h]

theorem synthesize_of_empty (env : TtsEnv) (fs : FileSys) (task : AudioRenderTask)
    (h1 : fileExistsNonEmpty fs task.output_path = false)
    (h2 : pyStrip task.segment.text = String.mk []) :
    synthesize env fs task
      = { fs := updateFs fs task.output_path (env.silence (silenceMs task.segment)),
          ttsCalls := 0, result := task.output_path, timeCompressed := false } := by
  simp [synthesize, h1, h2]

/-! ## Claim C2: the duration fitter's clamped speed-up factor -/

/-- C2: for a measured duration `D` and target slot `target`, the fitter
leaves the file unchanged when `D ≤ target` or when `D` cannot be measured;
otherwise the applied factor is `min(D / target, F_max)` and the file is
still left unchanged when that factor is `≤ 1.01`; with the default
`F_max = 1.3` and `D / target = 3/2`, the clip is compressed by exactly
`1.3`, leaving a positive residual overrun `D / 1.3 - target`. -/
theorem C2_duration_fitter :
    (∀ targetDuration maxSpeedupFactor : ℚ,
        fitClip none targetDuration maxSpeedupFactor = none)
    ∧ (∀ D targetDuration maxSpeedupFactor : ℚ, D ≤ targetDuration →
        fitClip (some D) targetDuration maxSpeedupFactor = none)
    ∧ (∀ D targetDuration maxSpeedupFactor : ℚ, targetDuration < D →
        1.01 < min (D / targetDuration) maxSpeedupFactor →
        fitClip (some D) targetDuration maxSpeedupFactor
          = some (min (D / targetDuration) maxSpeedupFactor))
    ∧ (∀ D targetDuration maxSpeedupFactor : ℚ, targetDuration < D →
        min (D / targetDuration) maxSpeedupFactor ≤ 1.01 →
        fitClip (some D) targetDuration maxSpeedupFactor = none)
    ∧ (∀ D targetDuration : ℚ, 0 < targetDuration → D / targetDuration = 3 / 2 →
        fitClip (some D) targetDuration defaultMaxSpeedupFactor
            = some defaultMaxSpeedupFactor
        ∧ 0 < D / defaultMaxSpeedupFactor - targetDuration) := by
  refine ⟨fun _ _ => rfl, ?_, ?_, ?_, ?_⟩
  · intro D target fmax h
    simp [fitClip, not_lt.mpr h]
  · intro D target fmax h1 h2
    simp [fitClip, h1, h2]
  · intro D target fmax h1 h2
    simp [fitClip, h1, not_lt.mpr h2]
  · intro D target h1 h2
    have hD : D = 3 / 2 * target := by
      field_simp at h2
      linarith
    have hlt : target < D := by rw [hD]; linarith
    have hdiv : D / target = 3 / 2 := h2
    constructor
    · simp only [fitClip, if_pos hlt, hdiv]
      have hmin : min (3 / 2 : ℚ) defaultMaxSpeedupFactor = defaultMaxSpeedupFactor := by
        rw [min_eq_right]
        norm_num [defaultMaxSpeedupFactor]
      rw [hmin, if_pos]
      norm_num [defaultMaxSpeedupFactor]
    · rw [hD]
      have : (3 / 2 : ℚ) / defaultMaxSpeedupFactor - 1 > 0 := by
        norm_num [defaultMaxSpeedupFactor]
      have ht : 0 < target := h1
      calc (0 : ℚ) < ((3 / 2) / defaultMaxSpeedupFactor - 1) * target := by
            apply mul_pos this ht
        _ = 3 / 2 * target / defaultMaxSpeedupFactor - target := by
            field_simp
            ring

/-- C2 witness: `D = 3/2`, `target = 1`, the default ceiling `1.3`. -/
theorem C2_witness :
    fitClip (some (3 / 2)) 1 defaultMaxSpeedupFactor = some defaultMaxSpeedupFactor
    ∧ 0 < (3 / 2 : ℚ) / defaultMaxSpeedupFactor - 1 :=
  C2_duration_fitter.2.2.2.2 (3 / 2) 1 (by norm_num) (by norm_num)

/-! ## Claim C3: final clip order matches job order, not completion order -/

/-- C3: for every task list, every result list and every completion order
of the concurrent synthesis tasks, the clip list handed to the assembly
plan equals the original task list mapped to clips — the `i`-th clip
carries the `i`-th task's output path, start and end — independently of
`completionOrder` (which only affects `bounded_gather`'s discarded return
value). -/
theorem C3_order_from_jobs (tasks : List AudioRenderTask) (results : List String)
    (completionOrder : List ℕ) :
    planClips tasks results completionOrder = tasks.map taskClip
    ∧ ∀ i : ℕ, (planClips tasks results completionOrder)[i]? = tasks[i]?.map taskClip := by
  refine ⟨rfl, fun i => ?_⟩
  show (tasks.map taskClip)[i]? = tasks[i]?.map taskClip
  simp

/-! ## Claim C6: idempotent skip, zero TTS calls on re-run -/

/-- C6: a job whose output file exists with size > 0 performs no TTS call
and no write (the filesystem is returned unchanged); consequently a whole
run over a job list whose outputs are all present and non-empty performs
zero TTS calls and leaves the filesystem untouched. -/
theorem C6_idempotent :
    (∀ (env : TtsEnv) (fs : FileSys) (task : AudioRenderTask) (bytes : List ℕ),
        fs task.output_path = some bytes → 0 < bytes.length →
        synthesize env fs task
          = { fs := fs, ttsCalls := 0, result := task.output_path,
              timeCompressed := false })
    ∧ (∀ (env : TtsEnv) (fs : FileSys) (tasks : List AudioRenderTask),
        (∀ t ∈ tasks, ∃ bytes, fs t.output_path = some bytes ∧ 0 < bytes.length) →
        runAll env fs tasks = (fs, 0)) := by
  have hskip : ∀ (env : TtsEnv) (fs : FileSys) (task : AudioRenderTask) (bytes : List ℕ),
      fs task.output_path = some bytes → 0 < bytes.length →
      synthesize env fs task
        = { fs := fs, ttsCalls := 0, result := task.output_path,
            timeCompressed := false } := by
    intro env fs task bytes hb hlen
    apply synthesize_of_skip
    simp [fileExistsNonEmpty, hb, hlen]
  refine ⟨hskip, ?_⟩
  intro env fs tasks h
  induction tasks with
  | nil => rfl
  | cons t rest ih =>
    obtain ⟨bytes, hb, hlen⟩ := h t (List.mem_cons_self t rest)
    have hrest := ih fun s hs => h s (List.mem_cons_of_mem t hs)
    show (let r := synthesize env fs t
          let remaining := runAll env r.fs rest
          (remaining.1, r.ttsCalls + remaining.2)) = (fs, 0)
    rw [hskip env fs t bytes hb hlen]
    simp [hrest]

/-- C6 witness: a second run over `[taskText]` with its output already
present and non-empty makes zero TTS calls. -/
theorem C6_witness : runAll envW fsOne [taskText] = (fsOne, 0) :=
  C6_idempotent.2 envW fsOne [taskText] (by
    intro t ht
    rw [List.mem_singleton] at ht
    subst ht
    exact ⟨[7], rfl, by norm_num⟩)

/-! ## Claim C7: empty text yields silence (duration truncated to whole ms) -/

/-- C7 counterexample: for the empty-text segment `segC7` with
`end - start = 3/2000 s = 1.5 ms`, the code writes a 1 ms silent clip
(`silenceMs = max(1, int(1.5)) = 1`), so the written duration
(`1 ms = 1/1000 s`) differs from the claimed duration `end - start`,
although the claimed duration exceeds the 1 ms minimum. -/
theorem C7_counterexample :
    silenceMs segC7 = 1
    ∧ (silenceMs segC7 : ℚ) * (1 / 1000) ≠ segC7.endTime - segC7.start
    ∧ 1 / 1000 < segC7.endTime - segC7.start
    ∧ (synthesize envW fsEmpty taskC7).fs wPath = some (envW.silence 1) := by
  have hdiff : (segC7.endTime - segC7.start) * 1000 = 3 / 2 := by
    norm_num [segC7]
  have hfloor : ⌊(3 / 2 : ℚ)⌋ = 1 := by
    rw [Int.floor_eq_iff]
    norm_num
  have hms : silenceMs segC7 = 1 := by
    rw [silenceMs, hdiff, pyInt_eq_floor_of_nonneg (by norm_num), hfloor]
    rfl
  refine ⟨hms, ?_, ?_, ?_⟩
  · rw [hms]
    norm_num [segC7]
  · norm_num [segC7]
  · rw [synthesize_of_empty envW fsEmpty taskC7 rfl rfl]
    show updateFs fsEmpty taskC7.output_path (envW.silence (silenceMs taskC7.segment)) wPath
        = some (envW.silence 1)
    have hms' : silenceMs taskC7.segment = 1 := hms
    rw [hms']
    exact updateFs_self fsEmpty wPath (envW.silence 1)

/-- C7 (amended): on a job with empty (stripped) text whose output does not
already exist non-empty, `synthesize` writes a silent clip of
`max(1, ⌊(end - start) * 1000⌋)` milliseconds — `end - start` truncated to
whole milliseconds, with a minimum of 1 ms — and performs no TTS call. -/
theorem C7_empty_text (env : TtsEnv) (fs : FileSys) (task : AudioRenderTask)
    (h1 : fileExistsNonEmpty fs task.output_path = false)
    (h2 : pyStrip task.segment.text = String.mk []) :
    (synthesize env fs task).fs task.output_path
      = some (env.silence (silenceMs task.segment))
    ∧ (synthesize env fs task).ttsCalls = 0
    ∧ 1 ≤ silenceMs task.segment
    ∧ (0 ≤ task.segment.endTime - task.segment.start →
        (silenceMs task.segment : ℤ)
          = max 1 ⌊(task.segment.endTime - task.segment.start) * 1000⌋) := by
  rw [synthesize_of_empty env fs task h1 h2]
  refine ⟨updateFs_self fs task.output_path _, rfl, Nat.le_max_left 1 _, ?_⟩
  intro hd
  have hq : (0 : ℚ) ≤ (task.segment.endTime - task.segment.start) * 1000 := by
    have : (0 : ℚ) ≤ 1000 := by norm_num
    exact mul_nonneg hd this
  have hfl : 0 ≤ ⌊(task.segment.endTime - task.segment.start) * 1000⌋ :=
    Int.floor_nonneg.mpr hq
  rw [silenceMs, pyInt_eq_floor_of_nonneg hq]
  push_cast [Int.toNat_of_nonneg hfl]
  rfl

/-- C7 witness: on the empty filesystem, `taskC7` produces a silent clip of
`silenceMs segC7` ms and zero TTS calls. -/
theorem C7_witness :
    (synthesize envW fsEmpty taskC7).fs taskC7.output_path
      = some (envW.silence (silenceMs taskC7.segment))
    ∧ (synthesize envW fsEmpty taskC7).ttsCalls = 0 := by
  have h := C7_empty_text envW fsEmpty taskC7 (by decide) (by decide)
  exact ⟨h.1, h.2.1⟩

/-! ## Claim C8: duration-fitting failures never propagate -/

/-- C8: `synthesize` always returns the job's output path (the fitting
block never raises in the model: probe and re-encode failures are values,
not exceptions); moreover, when the probe fails, or when the re-encode at
the chosen factor fails, the freshly written provider audio is left in
place unmodified and the file is not marked time-compressed. -/
theorem C8_fitting_nonfatal :
    (∀ (env : TtsEnv) (fs : FileSys) (task : AudioRenderTask),
        (synthesize env fs task).result = task.output_path)
    ∧ (∀ (env : TtsEnv) (fs : FileSys) (task : AudioRenderTask),
        fileExistsNonEmpty fs task.output_path = false →
        pyStrip task.segment.text ≠ String.mk [] →
        env.probe env.ttsBytes = none →
        (synthesize env fs task).fs task.output_path = some env.ttsBytes
        ∧ (synthesize env fs task).timeCompressed = false)
    ∧ (∀ (env : TtsEnv) (fs : FileSys) (task : AudioRenderTask)
        (effectiveSpeedup : ℚ),
        fileExistsNonEmpty fs task.output_path = false →
        pyStrip task.segment.text ≠ String.mk [] →
        fitClip (env.probe env.ttsBytes)
            (task.segment.endTime - task.segment.start) env.maxSpeedupFactor
          = some effectiveSpeedup →
        env.compress env.ttsBytes effectiveSpeedup = none →
        (synthesize env fs task).fs task.output_path = some env.ttsBytes
        ∧ (synthesize env fs task).timeCompressed = false) := by
  refine ⟨?_, ?_, ?_⟩
  · intro env fs task
    unfold synthesize
    by_cases h1 : fileExistsNonEmpty fs task.output_path
    · simp [h1]
    · by_cases h2 : pyStrip task.segment.text = String.mk []
      · simp [h1, h2]
      · simp only [h1, Bool.false_eq_true, if_false, if_neg h2]
        cases hfit : fitClip (env.probe env.ttsBytes)
            (task.segment.endTime - task.segment.start) env.maxSpeedupFactor with
        | none => rfl
        | some eff =>
          cases hcomp : env.compress env.ttsBytes eff with
          | none => simp [hcomp]
          | some cb => simp [hcomp]
  · intro env fs task h1 h2 h3
    unfold synthesize
    simp only [h1, Bool.false_eq_true, if_false, if_neg h2, h3]
    refine ⟨updateFs_self fs task.output_path env.ttsBytes, ?_⟩
    trivial
  · intro env fs task eff h1 h2 hfit hcomp
    unfold synthesize
    simp only [h1, Bool.false_eq_true, if_false, if_neg h2, hfit, hcomp]
    refine ⟨updateFs_self fs task.output_path env.ttsBytes, ?_⟩
    trivial

/-- C8 witness: with a probe that always fails (`envW`), synthesizing
`taskText` on the empty filesystem still leaves the provider audio in
place and returns normally. -/
theorem C8_witness :
    (synthesize envW fsEmpty taskText).fs wPath = some envW.ttsBytes
    ∧ (synthesize envW fsEmpty taskText).timeCompressed = false :=
  C8_fitting_nonfatal.2.1 envW fsEmpty taskText (by decide) (by decide) rfl

/-! ## Claim C10: both early-return paths precede the fitting block -/

/-- C10: on the idempotent-skip path the whole filesystem is returned
byte-for-byte unchanged and no time-compression happens; on the empty-text
path the freshly written silence is returned with `timeCompressed = false`
unconditionally — in particular it is never time-compressed even when its
duration exceeds the target slot. -/
theorem C10_early_return :
    (∀ (env : TtsEnv) (fs : FileSys) (task : AudioRenderTask),
        fileExistsNonEmpty fs task.output_path = true →
        synthesize env fs task
          = { fs := fs, ttsCalls := 0, result := task.output_path,
              timeCompressed := false })
    ∧ (∀ (env : TtsEnv) (fs : FileSys) (task : AudioRenderTask),
        fileExistsNonEmpty fs task.output_path = false →
        pyStrip task.segment.text = String.mk [] →
        synthesize env fs task
          = { fs := updateFs fs task.output_path
                (env.silence (silenceMs task.segment)),
              ttsCalls := 0, result := task.output_path,
              timeCompressed := false }) :=
  ⟨synthesize_of_skip, synthesize_of_empty⟩

/-- C10 witness: a pre-existing non-empty output is returned untouched, and
`taskC7`'s fresh silence (1 ms, longer than its 1.5 ms slot would even
allow compressing) is not time-compressed. -/
theorem C10_witness :
    synthesize envW fsOne taskText
      = { fs := fsOne, ttsCalls := 0, result := wPath, timeCompressed := false }
    ∧ synthesize envW fsEmpty taskC7
      = { fs := updateFs fsEmpty wPath (envW.silence (silenceMs segC7)),
          ttsCalls := 0, result := wPath, timeCompressed := false } :=
  ⟨C10_early_return.1 envW fsOne taskText (by decide),
   C10_early_return.2 envW fsEmpty taskC7 (by decide) (by decide)⟩

/-! ## Compositor helper lemmas -/

theorem maxSegmentEnd_ge (clips : List RenderedAudioSegment) :
    ∀ c ∈ clips, c.endTime ≤ maxSegmentEnd clips := by
  induction clips with
  | nil => intro c hc; cases hc
  | cons d rest ih =>
    intro c hc
    rcases List.mem_cons.mp hc with h | h
    · subst h
      exact le_max_left _ _
    · exact le_trans (ih c h) (le_max_right _ _)

theorem maxSegmentEnd_insertClip (c : RenderedAudioSegment)
    (clips : List RenderedAudioSegment) :
    maxSegmentEnd (insertClip c clips) = max c.endTime (maxSegmentEnd clips) := by
  induction clips with
  | nil => rfl
  | cons d rest ih =>
    show maxSegmentEnd (if d.start < c.start then d :: insertClip c rest
        else c :: d :: rest) = _
    by_cases h : d.start < c.start
    · rw [if_pos h]
      show max d.endTime (maxSegmentEnd (insertClip c rest)) = _
      rw [ih]
      show _ = max c.endTime (max d.endTime (maxSegmentEnd rest))
      exact max_left_comm _ _ _
    · rw [if_neg h]
      rfl

theorem maxSegmentEnd_sortClips (clips : List RenderedAudioSegment) :
    maxSegmentEnd (sortClips clips) = maxSegmentEnd clips := by
  induction clips with
  | nil => rfl
  | cons d rest ih =>
    show maxSegmentEnd (insertClip d (sortClips rest)) = _
    rw [maxSegmentEnd_insertClip, ih]
    rfl

theorem overlay_nil_bed (seg : List ℤ) (pos : ℕ) : overlay [] seg pos = [] := by
  cases seg with
  | nil => rfl
  | cons s ss => cases pos <;> rfl

theorem overlay_nil_seg (bed : List ℤ) (pos : ℕ) : overlay bed [] pos = bed := by
  cases bed with
  | nil => rfl
  | cons b bs => cases pos <;> rfl

theorem overlay_length (bed seg : List ℤ) (pos : ℕ) :
    (overlay bed seg pos).length = bed.length := by
  induction bed generalizing seg pos with
  | nil => rw [overlay_nil_bed]
  | cons b bs ih =>
    cases seg with
    | nil => rw [overlay_nil_seg]
    | cons s ss =>
      cases pos with
      | zero =>
        show (satAdd b s :: overlay bs ss 0).length = _
        simp [ih]
      | succ n =>
        show (b :: overlay bs (s :: ss) n).length = _
        simp [ih]

theorem mixStep_length (env : CompositorEnv) (bed : List ℤ)
    (c : RenderedAudioSegment) : (mixStep env bed c).length = bed.length := by
  unfold mixStep
  cases env.audioFiles c.audio_path with
  | none => rfl
  | some samples => exact overlay_length bed samples _

theorem foldl_mixStep_length (env : CompositorEnv)
    (clips : List RenderedAudioSegment) (bed : List ℤ) :
    (clips.foldl (mixStep env) bed).length = bed.length := by
  induction clips generalizing bed with
  | nil => rfl
  | cons c rest ih =>
    rw [List.foldl_cons, ih, mixStep_length]

theorem foldl_mixStep_filter (env : CompositorEnv)
    (clips : List RenderedAudioSegment) (bed : List ℤ) :
    clips.foldl (mixStep env) bed
      = (clips.filter fun c => (env.audioFiles c.audio_path).isSome).foldl
          (mixStep env) bed := by
  induction clips generalizing bed with
  | nil => rfl
  | cons c rest ih =>
    rw [List.foldl_cons, List.filter_cons]
    cases h : env.audioFiles c.audio_path with
    | none =>
      have hstep : mixStep env bed c = bed := by simp [mixStep, h]
      simp only [h, Option.isSome_none, Bool.false_eq_true, if_false, hstep]
      exact ih bed
    | some samples =>
      simp only [h, Option.isSome_some, if_true, List.foldl_cons]
      exact ih (mixStep env bed c)

theorem getD_replicate_zero (n i : ℕ) : (List.replicate n (0 : ℤ)).getD i 0 = 0 := by
  induction n generalizing i with
  | zero => cases i <;> rfl
  | succ m ih =>
    cases i with
    | zero => rfl
    | succ k =>
      show (List.replicate m (0 : ℤ)).getD k 0 = 0
      exact ih k

theorem satAdd_zero_left {s : ℤ} (h1 : -32768 ≤ s) (h2 : s ≤ 32767) :
    satAdd 0 s = s := by
  rw [satAdd]
  omega

theorem overlay_getD (bed seg : List ℤ) (pos i : ℕ) (hi : i < bed.length) :
    (overlay bed seg pos).getD i 0
      = if pos ≤ i ∧ i < pos + seg.length
          then satAdd (bed.getD i 0) (seg.getD (i - pos) 0)
          else bed.getD i 0 := by
  induction bed generalizing seg pos i with
  | nil => cases hi
  | cons b bs ih =>
    cases seg with
    | nil =>
      rw [overlay_nil_seg]
      rw [if_neg (by simp)]
    | cons s ss =>
      cases pos with
      | zero =>
        cases i with
        | zero =>
          show satAdd b s = _
          rw [if_pos (by simp)]
          rfl
        | succ k =>
          show (overlay bs ss 0).getD k 0 = _
          have hk' : k < bs.length := by
            simpa using hi
          rw [ih ss 0 k hk']
          simp only [List.length_cons, Nat.zero_le, true_and, Nat.zero_add]
          by_cases hk : k < ss.length
          · rw [if_pos hk, if_pos (by omega)]
            rfl
          · rw [if_neg hk, if_neg (by omega)]
            rfl
      | succ n =>
        cases i with
        | zero =>
          show b = _
          rw [if_neg (by
            intro hcon
            omega)]
          rfl
        | succ k =>
          show (overlay bs (s :: ss) n).getD k 0 = _
          have hk' : k < bs.length := by
            simpa using hi
          rw [ih (s :: ss) n k hk']
          simp only [List.length_cons]
          by_cases hk : n ≤ k ∧ k < n + (ss.length + 1)
          · rw [if_pos hk, if_pos (by omega)]
            have heq : k + 1 - (n + 1) = k - n := by omega
            rw [heq]
            rfl
          · rw [if_neg hk, if_neg (by omega)]
            rfl

theorem mem_insertClip {x c : RenderedAudioSegment} {l : List RenderedAudioSegment} :
    x ∈ insertClip c l ↔ x = c ∨ x ∈ l := by
  induction l with
  | nil => simp [insertClip]
  | cons d rest ih =>
    show x ∈ (if d.start < c.start then d :: insertClip c rest else c :: d :: rest) ↔ _
    by_cases h : d.start < c.start
    · rw [if_pos h]
      simp only [List.mem_cons, ih]
      tauto
    · rw [if_neg h]
      simp only [List.mem_cons]

theorem pairwise_insertClip {c : RenderedAudioSegment} {l : List RenderedAudioSegment}
    (hl : List.Pairwise (fun a b => a.start ≤ b.start) l) :
    List.Pairwise (fun a b => a.start ≤ b.start) (insertClip c l) := by
  induction l with
  | nil => simp [insertClip]
  | cons d rest ih =>
    rw [List.pairwise_cons] at hl
    obtain ⟨hd, hrest⟩ := hl
    show List.Pairwise _ (if d.start < c.start then d :: insertClip c rest else c :: d :: rest)
    by_cases h : d.start < c.start
    · rw [if_pos h, List.pairwise_cons]
      refine ⟨?_, ih hrest⟩
      intro x hx
      rcases mem_insertClip.mp hx with rfl | hx
      · exact le_of_lt h
      · exact hd x hx
    · rw [if_neg h, List.pairwise_cons]
      refine ⟨?_, List.pairwise_cons.mpr ⟨hd, hrest⟩⟩
      intro x hx
      rcases List.mem_cons.mp hx with rfl | hx
      · exact le_of_not_lt h
      · exact le_trans (le_of_not_lt h) (hd x hx)

theorem sortClips_pairwise (clips : List RenderedAudioSegment) :
    List.Pairwise (fun a b => a.start ≤ b.start) (sortClips clips) := by
  induction clips with
  | nil => exact List.Pairwise.nil
  | cons c rest ih => exact pairwise_insertClip ih

theorem filter_insertClip (c : RenderedAudioSegment) (l : List RenderedAudioSegment)
    (q : ℚ) :
    (insertClip c l).filter (fun x => decide (x.start = q))
      = if c.start = q
          then c :: l.filter (fun x => decide (x.start = q))
          else l.filter (fun x => decide (x.start = q)) := by
  induction l with
  | nil =>
    show [c].filter _ = _
    by_cases hc : c.start = q
    · rw [if_pos hc]
      simp [List.filter_cons, hc]
    · rw [if_neg hc]
      simp [List.filter_cons, hc]
  | cons d rest ih =>
    show (if d.start < c.start then d :: insertClip c rest else c :: d :: rest).filter _ = _
    by_cases h : d.start < c.start
    · rw [if_pos h, List.filter_cons]
      by_cases hd : d.start = q
      · by_cases hc : c.start = q
        · rw [hd] at h
          rw [hc] at h
          exact absurd h (lt_irrefl q)
        · simp [hd, hc, ih, List.filter_cons]
      · by_cases hc : c.start = q
        · simp [hd, hc, ih, List.filter_cons]
        · simp [hd, hc, ih, List.filter_cons]
    · rw [if_neg h, List.filter_cons]
      by_cases hc : c.start = q
      · rw [if_pos hc]
        simp [hc]
      · rw [if_neg hc]
        simp [hc]

theorem sortClips_filter (clips : List RenderedAudioSegment) (q : ℚ) :
    (sortClips clips).filter (fun x => decide (x.start = q))
      = clips.filter (fun x => decide (x.start = q)) := by
  induction clips with
  | nil => rfl
  | cons c rest ih =>
    show (insertClip c (sortClips rest)).filter _ = _
    rw [filter_insertClip, List.filter_cons]
    by_cases hc : c.start = q
    · rw [if_pos hc, ih]
      simp [hc]
    · rw [if_neg hc, ih]
      simp [hc]

/-! ## Claim C1: the audio bed's total duration -/

/-- C1 counterexample: with a 0.5 s source video and no clips, the bed is
1000 ms long (`max(1000, ceil(0.5*1000))`), but the spec's
`max(videoDuration, max clip end, 1 ms)` is 500 ms — the floor in the code
is one second, not one millisecond. -/
theorem C1_counterexample :
    totalDurationMs (some (1 / 2)) [] = 1000
    ∧ specTotalDurationMs (probeDuration (some (1 / 2))) [] = 500
    ∧ (1000 : ℚ) ≠ 500 := by
  have hpd : probeDuration (some (1 / 2)) = 1 / 2 := by
    show max 0 (1 / 2 : ℚ) = 1 / 2
    rw [max_eq_right]
    norm_num
  have hmse : maxSegmentEnd [] = 0 := rfl
  refine ⟨?_, ?_, by norm_num⟩
  · rw [totalDurationMs, hpd, hmse]
    have hmax : max (1 / 2 : ℚ) 0 = 1 / 2 := max_eq_left (by norm_num)
    rw [hmax]
    have hceil : ratCeil ((1 / 2 : ℚ) * 1000) = 500 := by
      rw [ratCeil_eq_ceil]
      norm_num
    rw [hceil]
    norm_num
  · rw [specTotalDurationMs, hpd, hmse]
    have h1 : max ((1 / 2 : ℚ) * 1000) ((0 : ℚ) * 1000) = 500 := by
      rw [max_eq_left (by norm_num)]
      norm_num
    rw [h1, max_eq_left (by norm_num)]

/-- C1 (amended): the bed the compositor builds has
`max(1000, ceil(max(videoDuration, max clip end) * 1000))` milliseconds —
at least the video duration, at least every clip's end, and at least
1000 ms (hence never less than the spec's 1 ms floor), and at most one
millisecond above `max(1000 ms, max(videoDuration, max clip end))`. -/
theorem C1_total_duration (env : CompositorEnv) (videoProbe : Option ℚ)
    (clips : List RenderedAudioSegment) :
    (attach_audio_segments env videoProbe clips).length
      = msToFrames (totalDurationMs videoProbe (sortClips clips))
    ∧ probeDuration videoProbe * 1000
        ≤ (totalDurationMs videoProbe (sortClips clips) : ℚ)
    ∧ (∀ c ∈ clips,
        c.endTime * 1000 ≤ (totalDurationMs videoProbe (sortClips clips) : ℚ))
    ∧ (1000 : ℤ) ≤ totalDurationMs videoProbe (sortClips clips)
    ∧ (totalDurationMs videoProbe (sortClips clips) : ℚ)
        ≤ max 1000 (max (probeDuration videoProbe) (maxSegmentEnd clips) * 1000 + 1) := by
  have hM : maxSegmentEnd (sortClips clips) = maxSegmentEnd clips :=
    maxSegmentEnd_sortClips clips
  have hchain : ∀ x : ℚ,
      x ≤ max (probeDuration videoProbe) (maxSegmentEnd clips) →
      x * 1000 ≤ (totalDurationMs videoProbe (sortClips clips) : ℚ) := by
    intro x hx
    have h1 : x * 1000
        ≤ max (probeDuration videoProbe) (maxSegmentEnd clips) * 1000 := by
      apply mul_le_mul_of_nonneg_right hx
      norm_num
    have h2 : max (probeDuration videoProbe) (maxSegmentEnd clips) * 1000
        ≤ (ratCeil (max (probeDuration videoProbe) (maxSegmentEnd clips) * 1000) : ℚ) :=
      le_ratCeil _
    have h3 : (ratCeil (max (probeDuration videoProbe) (maxSegmentEnd clips) * 1000) : ℚ)
        ≤ (totalDurationMs videoProbe (sortClips clips) : ℚ) := by
      rw [totalDurationMs, hM]
      exact_mod_cast Int.cast_le.mpr (le_max_right 1000 _)
    linarith
  refine ⟨?_, ?_, ?_, ?_, ?_⟩
  · show ((sortClips clips).foldl (mixStep env)
        (List.replicate (msToFrames (totalDurationMs videoProbe (sortClips clips))) 0)).length
      = _
    rw [foldl_mixStep_length, List.length_replicate]
  · exact hchain _ (le_max_left _ _)
  · intro c hc
    exact hchain _ (le_trans (maxSegmentEnd_ge clips c hc) (le_max_right _ _))
  · rw [totalDurationMs]
    exact le_max_left 1000 _
  · rw [totalDurationMs, hM]
    rw [Int.cast_max]
    apply max_le_max
    · norm_num
    · exact ratCeil_le_add_one _

/-- C1 witness: with a single clip ending at 1 s, the computed bed length
bounds that clip's end. -/
theorem C1_witness :
    clipW.endTime * 1000 ≤ (totalDurationMs (some 0) (sortClips [clipW]) : ℚ) :=
  (C1_total_duration envNone (some 0) [clipW]).2.2.1 clipW (List.mem_singleton.mpr rfl)

/-! ## Claim C9: a missing clip file is skipped silently -/

/-- C9: a clip whose audio file does not exist contributes nothing to the
bed (its mixing step is the identity); the whole composite equals the fold
over only the clips whose files exist, so the remaining clips proceed
normally; and compositing a single missing clip leaves the bed entirely
silent. -/
theorem C9_missing_clip :
    (∀ (env : CompositorEnv) (bed : List ℤ) (c : RenderedAudioSegment),
        env.audioFiles c.audio_path = none → mixStep env bed c = bed)
    ∧ (∀ (env : CompositorEnv) (videoProbe : Option ℚ)
        (clips : List RenderedAudioSegment),
        attach_audio_segments env videoProbe clips
          = ((sortClips clips).filter fun c => (env.audioFiles c.audio_path).isSome).foldl
              (mixStep env)
              (List.replicate (msToFrames (totalDurationMs videoProbe (sortClips clips))) 0))
    ∧ (∀ (env : CompositorEnv) (videoProbe : Option ℚ) (c : RenderedAudioSegment),
        env.audioFiles c.audio_path = none →
        attach_audio_segments env videoProbe [c]
          = List.replicate (msToFrames (totalDurationMs videoProbe [c])) 0) := by
  have hid : ∀ (env : CompositorEnv) (bed : List ℤ) (c : RenderedAudioSegment),
      env.audioFiles c.audio_path = none → mixStep env bed c = bed := by
    intro env bed c h
    simp [mixStep, h]
  refine ⟨hid, ?_, ?_⟩
  · intro env videoProbe clips
    exact foldl_mixStep_filter env (sortClips clips) _
  · intro env videoProbe c h
    show [c].foldl (mixStep env)
        (List.replicate (msToFrames (totalDurationMs videoProbe [c])) 0) = _
    rw [List.foldl_cons,
      hid env (List.replicate (msToFrames (totalDurationMs videoProbe [c])) 0) c h]
    rfl

/-- C9 witness: a single clip with no file on disk composites to an
all-silent bed. -/
theorem C9_witness :
    attach_audio_segments envNone none [clipW]
      = List.replicate (msToFrames (totalDurationMs none [clipW])) 0 :=
  C9_missing_clip.2.2 envNone none clipW rfl

/-! ## Claim C4: stable sort, overlay position, additive overlap -/

/-- C4: the compositor's clip order is sorted by `start` ascending and
stable (for every start value, the clips with that start keep their
original relative order); each clip is overlaid at
`floor(start * 1000)` milliseconds (for the data model's nonnegative
starts); and wherever two clips overlap on the bed, the bed's sample is
the saturating 16-bit sum of the two clips' samples (the clips' samples
being in canonical format, hence within the 16-bit range). -/
theorem C4_compositor :
    (∀ clips : List RenderedAudioSegment,
        List.Pairwise (fun a b => a.start ≤ b.start) (sortClips clips))
    ∧ (∀ (clips : List RenderedAudioSegment) (q : ℚ),
        (sortClips clips).filter (fun x => decide (x.start = q))
          = clips.filter (fun x => decide (x.start = q)))
    ∧ (∀ s : ℚ, 0 ≤ s → overlayPosMs s = ⌊s * 1000⌋)
    ∧ (∀ (env : CompositorEnv) (videoProbe : Option ℚ)
        (c1 c2 : RenderedAudioSegment) (s1 s2 : List ℤ) (i : ℕ),
        env.audioFiles c1.audio_path = some s1 →
        env.audioFiles c2.audio_path = some s2 →
        c1.start ≤ c2.start →
        msToFrames (overlayPosMs c1.start) ≤ i →
        i < msToFrames (overlayPosMs c1.start) + s1.length →
        msToFrames (overlayPosMs c2.start) ≤ i →
        i < msToFrames (overlayPosMs c2.start) + s2.length →
        i < msToFrames (totalDurationMs videoProbe (sortClips [c1, c2])) →
        -32768 ≤ s1.getD (i - msToFrames (overlayPosMs c1.start)) 0 →
        s1.getD (i - msToFrames (overlayPosMs c1.start)) 0 ≤ 32767 →
        (attach_audio_segments env videoProbe [c1, c2]).getD i 0
          = satAdd (s1.getD (i - msToFrames (overlayPosMs c1.start)) 0)
              (s2.getD (i - msToFrames (overlayPosMs c2.start)) 0)) := by
  refine ⟨sortClips_pairwise, sortClips_filter, ?_, ?_⟩
  · intro s hs
    have hq : (0 : ℚ) ≤ s * 1000 := mul_nonneg hs (by norm_num)
    rw [overlayPosMs, pyInt_eq_floor_of_nonneg hq]
    exact max_eq_right (Int.floor_nonneg.mpr hq)
  · intro env videoProbe c1 c2 s1 s2 i hf1 hf2 h12 hp1le hp1lt hp2le hp2lt hbed hr1 hr2
    have hsort : sortClips [c1, c2] = [c1, c2] := by
      show insertClip c1 [c2] = [c1, c2]
      show (if c2.start < c1.start then c2 :: insertClip c1 [] else c1 :: c2 :: []) = _
      rw [if_neg (not_lt.mpr h12)]
    have hattach : attach_audio_segments env videoProbe [c1, c2]
        = [c1, c2].foldl (mixStep env)
            (List.replicate (msToFrames (totalDurationMs videoProbe (sortClips [c1, c2]))) 0) := by
      show (sortClips [c1, c2]).foldl (mixStep env) _ = _
      rw [hsort]
    set bed : List ℤ :=
      List.replicate (msToFrames (totalDurationMs videoProbe (sortClips [c1, c2]))) 0 with hbeddef
    have hlenbed : bed.length
        = msToFrames (totalDurationMs videoProbe (sortClips [c1, c2])) := by
      rw [hbeddef, List.length_replicate]
    have hstep : [c1, c2].foldl (mixStep env) bed
        = overlay (overlay bed s1 (msToFrames (overlayPosMs c1.start))) s2
            (msToFrames (overlayPosMs c2.start)) := by
      rw [List.foldl_cons, List.foldl_cons, List.foldl_nil]
      rw [show mixStep env bed c1
          = overlay bed s1 (msToFrames (overlayPosMs c1.start)) by simp [mixStep, hf1]]
      simp [mixStep, hf2]
    rw [hattach, hstep]
    have hi1 : i < (overlay bed s1 (msToFrames (overlayPosMs c1.start))).length := by
      rw [overlay_length, hlenbed]
      exact hbed
    rw [overlay_getD _ _ _ _ hi1, if_pos ⟨hp2le, hp2lt⟩]
    have hi0 : i < bed.length := by
      rw [hlenbed]
      exact hbed
    rw [overlay_getD _ _ _ _ hi0, if_pos ⟨hp1le, hp1lt⟩]
    rw [hbeddef, getD_replicate_zero]
    rw [satAdd_zero_left hr1 hr2]

/-- C4 witness: the overlay position of a clip starting at 0.5 s is
`⌊500⌋` ms, and two fully overlapping one-sample clips (values 100 and
200) produce the saturating sum `satAdd 100 200` at bed sample 0. -/
theorem C4_witness :
    overlayPosMs (1 / 2) = ⌊(1 / 2 : ℚ) * 1000⌋
    ∧ (attach_audio_segments envTwo none [clipA, clipB]).getD 0 0
        = satAdd 100 200 := by
  have hpos : overlayPosMs (0 : ℚ) = 0 := by
    have h := C4_compositor.2.2.1 0 (le_refl 0)
    rw [h]
    norm_num
  have hposA : msToFrames (overlayPosMs clipA.start) = 0 := by
    rw [show clipA.start = (0 : ℚ) from rfl, hpos]
    rfl
  have hposB : msToFrames (overlayPosMs clipB.start) = 0 := by
    rw [show clipB.start = (0 : ℚ) from rfl, hpos]
    rfl
  have hsort : sortClips [clipA, clipB] = [clipA, clipB] := by
    show insertClip clipA [clipB] = [clipA, clipB]
    show (if clipB.start < clipA.start then clipB :: insertClip clipA []
        else clipA :: clipB :: []) = _
    rw [if_neg (by
      show ¬ clipB.start < clipA.start
      rw [show clipA.start = (0 : ℚ) from rfl, show clipB.start = (0 : ℚ) from rfl]
      exact lt_irrefl 0)]
  have htotal : totalDurationMs none (sortClips [clipA, clipB]) = 1000 := by
    rw [hsort, totalDurationMs]
    have hpd : probeDuration none = 0 := rfl
    have hmse : maxSegmentEnd [clipA, clipB] = 1 := by
      show max clipA.endTime (max clipB.endTime 0) = 1
      rw [show clipA.endTime = (1 : ℚ) from rfl, show clipB.endTime = (1 : ℚ) from rfl]
      rw [max_eq_left (by norm_num : (0 : ℚ) ≤ 1), max_self]
    rw [hpd, hmse, max_eq_right (by norm_num : (0 : ℚ) ≤ 1)]
    have hceil : ratCeil ((1 : ℚ) * 1000) = 1000 := by
      rw [ratCeil_eq_ceil]
      norm_num
    rw [hceil, max_self]
  refine ⟨C4_compositor.2.2.1 (1 / 2) (by norm_num), ?_⟩
  have happ := C4_compositor.2.2.2 envTwo none clipA clipB [100] [200] 0
    rfl rfl (le_of_eq rfl)
    (by rw [hposA]) (by rw [hposA]; norm_num)
    (by rw [hposB]) (by rw [hposB]; norm_num)
    (by rw [htotal]; norm_num [msToFrames])
    (by rw [hposA]; norm_num)
    (by rw [hposA]; norm_num)
  rw [hposA, hposB] at happ
  simpa using happ

/-! ## Decimal formatting lemmas (claim C5) -/

theorem digitChar_toNat : ∀ d, d < 10 → (digitChar d).toNat = 48 + d := by decide

theorem digitChar_lt_digitChar :
    ∀ d, d < 10 → ∀ e, e < 10 → d < e → digitChar d < digitChar e := by decide

theorem digitChar_ne_sep : ∀ d, d < 10 → digitChar d ≠ Char.ofNat 95 := by decide

theorem decDigitsAux_valLE : ∀ (fuel n : ℕ), n ≤ fuel →
    valLE (decDigitsAux fuel n) = n := by
  intro fuel
  induction fuel with
  | zero =>
    intro n hn
    have h0 : n = 0 := Nat.le_zero.mp hn
    subst h0
    rfl
  | succ f ih =>
    intro n hn
    cases n with
    | zero => rfl
    | succ m =>
      show valLE ((m + 1) % 10 :: decDigitsAux f ((m + 1) / 10)) = m + 1
      show (m + 1) % 10 + 10 * valLE (decDigitsAux f ((m + 1) / 10)) = m + 1
      rw [ih ((m + 1) / 10) (by
        have hlt : (m + 1) / 10 < m + 1 := Nat.div_lt_self (Nat.succ_pos m) (by norm_num)
        omega)]
      omega

theorem decDigitsAux_lt_ten : ∀ (fuel n d : ℕ), d ∈ decDigitsAux fuel n → d < 10 := by
  intro fuel
  induction fuel with
  | zero =>
    intro n d hd
    cases hd
  | succ f ih =>
    intro n d hd
    cases n with
    | zero => cases hd
    | succ m =>
      rcases List.mem_cons.mp hd with h | h
      · subst h
        exact Nat.mod_lt _ (by norm_num)
      · exact ih _ _ h

theorem decDigitsAux_length_le : ∀ (fuel n k : ℕ), n ≤ fuel → n < 10 ^ k →
    (decDigitsAux fuel n).length ≤ k := by
  intro fuel
  induction fuel with
  | zero =>
    intro n k _ _
    exact Nat.zero_le k
  | succ f ih =>
    intro n k hn hk
    cases n with
    | zero => exact Nat.zero_le k
    | succ m =>
      show ((m + 1) % 10 :: decDigitsAux f ((m + 1) / 10)).length ≤ k
      cases k with
      | zero =>
        exfalso
        have : (1 : ℕ) ≤ m + 1 := Nat.succ_le_succ (Nat.zero_le m)
        simp only [pow_zero] at hk
        omega
      | succ k0 =>
        rw [List.length_cons]
        have h1 : (m + 1) / 10 ≤ f := by
          have hlt : (m + 1) / 10 < m + 1 := Nat.div_lt_self (Nat.succ_pos m) (by norm_num)
          omega
        have h2 : (m + 1) / 10 < 10 ^ k0 := by
          rw [Nat.div_lt_iff_lt_mul (by norm_num : 0 < 10)]
          calc m + 1 < 10 ^ (k0 + 1) := hk
            _ = 10 ^ k0 * 10 := by ring
        exact Nat.succ_le_succ (ih _ _ h1 h2)

theorem valBE_append_single (cs : List Char) (c : Char) :
    valBE (cs ++ [c]) = 10 * valBE cs + (c.toNat - 48) := by
  induction cs with
  | nil => simp [valBE]
  | cons x rest ih =>
    show (x.toNat - 48) * 10 ^ (rest ++ [c]).length + valBE (rest ++ [c]) = _
    rw [List.length_append, ih]
    show (x.toNat - 48) * 10 ^ (rest.length + 1) + (10 * valBE rest + (c.toNat - 48))
        = 10 * ((x.toNat - 48) * 10 ^ rest.length + valBE rest) + (c.toNat - 48)
    rw [pow_succ]
    ring

theorem valBE_revMap (ds : List ℕ) (h : ∀ d ∈ ds, d < 10) :
    valBE ((ds.reverse).map digitChar) = valLE ds := by
  induction ds with
  | nil => rfl
  | cons d rest ih =>
    rw [List.reverse_cons, List.map_append]
    show valBE ((rest.reverse.map digitChar) ++ [digitChar d]) = _
    rw [valBE_append_single, ih (fun x hx => h x (List.mem_cons_of_mem d hx))]
    rw [digitChar_toNat d (h d (List.mem_cons_self d rest))]
    show 10 * valLE rest + (48 + d - 48) = d + 10 * valLE rest
    omega

theorem valBE_replicate_zero_append (k : ℕ) (cs : List Char) :
    valBE (List.replicate k (Char.ofNat 48) ++ cs) = valBE cs := by
  induction k with
  | zero => rfl
  | succ m ih =>
    show ((Char.ofNat 48).toNat - 48) * 10 ^ (List.replicate m (Char.ofNat 48) ++ cs).length
        + valBE (List.replicate m (Char.ofNat 48) ++ cs) = _
    rw [ih]
    have h48 : (Char.ofNat 48).toNat - 48 = 0 := by decide
    rw [h48, Nat.zero_mul, Nat.zero_add]

theorem valBE_zeroPadC (w : ℕ) (cs : List Char) :
    valBE (zeroPadC w cs) = valBE cs :=
  valBE_replicate_zero_append _ cs

theorem valBE_decChars (n : ℕ) : valBE (decChars n) = n := by
  by_cases h : n = 0
  · subst h
    decide
  · rw [decChars, if_neg h]
    rw [valBE_revMap (decDigits n) (fun d hd => decDigitsAux_lt_ten n n d hd)]
    exact decDigitsAux_valLE n n (le_refl n)

theorem decChars_digits (n : ℕ) : ∀ c ∈ decChars n, IsDigitCh c := by
  intro c hc
  by_cases h : n = 0
  · subst h
    rw [decChars, if_pos rfl] at hc
    rw [List.mem_singleton] at hc
    subst hc
    exact ⟨0, by norm_num, rfl⟩
  · rw [decChars, if_neg h] at hc
    rw [List.mem_map] at hc
    obtain ⟨d, hd, rfl⟩ := hc
    rw [List.mem_reverse] at hd
    exact ⟨d, decDigitsAux_lt_ten n n d hd, rfl⟩

theorem zeroPadC_digits (w : ℕ) (cs : List Char) (h : ∀ c ∈ cs, IsDigitCh c) :
    ∀ c ∈ zeroPadC w cs, IsDigitCh c := by
  intro c hc
  rw [zeroPadC, List.mem_append] at hc
  rcases hc with hc | hc
  · rw [List.mem_replicate] at hc
    rw [hc.2]
    exact ⟨0, by norm_num, rfl⟩
  · exact h c hc

theorem isDigitCh_ne_sep {c : Char} (h : IsDigitCh c) : c ≠ Char.ofNat 95 := by
  obtain ⟨d, hd, rfl⟩ := h
  exact digitChar_ne_sep d hd

theorem valBE_lt (cs : List Char) (h : ∀ c ∈ cs, IsDigitCh c) :
    valBE cs < 10 ^ cs.length := by
  induction cs with
  | nil => norm_num [valBE]
  | cons c rest ih =>
    obtain ⟨d, hd, hc⟩ := h c (List.mem_cons_self c rest)
    subst hc
    have h1 : valBE rest < 10 ^ rest.length :=
      ih (fun x hx => h x (List.mem_cons_of_mem _ hx))
    show ((digitChar d).toNat - 48) * 10 ^ rest.length + valBE rest < 10 ^ (rest.length + 1)
    rw [digitChar_toNat d hd]
    have h2 : 48 + d - 48 = d := by omega
    rw [h2, pow_succ]
    calc d * 10 ^ rest.length + valBE rest
        < d * 10 ^ rest.length + 10 ^ rest.length := Nat.add_lt_add_left h1 _
      _ = (d + 1) * 10 ^ rest.length := by ring
      _ ≤ 10 * 10 ^ rest.length := Nat.mul_le_mul_right _ (by omega)
      _ = 10 ^ rest.length * 10 := by ring

theorem lex_of_valBE_lt : ∀ (a b : List Char), a.length = b.length →
    (∀ c ∈ a, IsDigitCh c) → (∀ c ∈ b, IsDigitCh c) →
    valBE a < valBE b → List.Lex (· < ·) a b := by
  intro a
  induction a with
  | nil =>
    intro b hlen _ _ hv
    cases b with
    | nil => exact absurd hv (lt_irrefl 0)
    | cons x xs => exact absurd hlen (by simp)
  | cons c a0 ih =>
    intro b hlen ha hb hv
    cases b with
    | nil => exact absurd hlen (by simp)
    | cons e b0 =>
      obtain ⟨dc, hdc, hc⟩ := ha c (List.mem_cons_self c a0)
      obtain ⟨de, hde, he⟩ := hb e (List.mem_cons_self e b0)
      subst hc
      subst he
      have hlen0 : a0.length = b0.length := by simpa using hlen
      have h48c : (digitChar dc).toNat - 48 = dc := by
        rw [digitChar_toNat dc hdc]
        omega
      have h48e : (digitChar de).toNat - 48 = de := by
        rw [digitChar_toNat de hde]
        omega
      simp only [valBE] at hv
      rw [h48c, h48e, hlen0] at hv
      rcases Nat.lt_trichotomy dc de with hlt | heq | hgt
      · exact List.Lex.rel (digitChar_lt_digitChar dc hdc de hde hlt)
      · subst heq
        apply List.Lex.cons
        apply ih b0 hlen0 (fun x hx => ha x (List.mem_cons_of_mem _ hx))
          (fun x hx => hb x (List.mem_cons_of_mem _ hx))
        exact Nat.lt_of_add_lt_add_left hv
      · exfalso
        have hE : valBE b0 < 10 ^ b0.length :=
          valBE_lt b0 (fun x hx => hb x (List.mem_cons_of_mem _ hx))
        have hmul : (de + 1) * 10 ^ b0.length ≤ dc * 10 ^ b0.length :=
          Nat.mul_le_mul_right _ (by omega)
        have hexp : (de + 1) * 10 ^ b0.length
            = de * 10 ^ b0.length + 10 ^ b0.length := by ring
        omega

theorem lex_append_of_lex (a b x y : List Char) (hlen : a.length = b.length)
    (hlex : List.Lex (· < ·) a b) : List.Lex (· < ·) (a ++ x) (b ++ y) := by
  induction hlex with
  | nil => exact absurd hlen (by simp)
  | rel h => exact List.Lex.rel h
  | cons h ih => exact List.Lex.cons (ih (by simpa using hlen))

theorem lex_append_left (d x y : List Char) (h : List.Lex (· < ·) x y) :
    List.Lex (· < ·) (d ++ x) (d ++ y) := by
  induction d with
  | nil => exact h
  | cons c d0 ih => exact List.Lex.cons ih

theorem append_sep_cancel : ∀ (a b x y : List Char) (sep : Char),
    sep ∉ a → sep ∉ b → a ++ sep :: x = b ++ sep :: y → a = b ∧ x = y := by
  intro a
  induction a with
  | nil =>
    intro b x y sep _ hb heq
    cases b with
    | nil =>
      rw [List.nil_append, List.nil_append] at heq
      injection heq with _ h2
      exact ⟨rfl, h2⟩
    | cons e b0 =>
      exfalso
      rw [List.nil_append] at heq
      injection heq with h1 _
      subst h1
      exact hb (List.mem_cons_self sep b0)
  | cons c a0 ih =>
    intro b x y sep ha hb heq
    cases b with
    | nil =>
      exfalso
      rw [List.nil_append] at heq
      injection heq with h1 _
      subst h1
      exact ha (List.mem_cons_self c a0)
    | cons e b0 =>
      injection heq with h1 h2
      subst h1
      obtain ⟨hab, hxy⟩ := ih b0 x y sep
        (fun hmem => ha (List.mem_cons_of_mem c hmem))
        (fun hmem => hb (List.mem_cons_of_mem c hmem)) h2
      exact ⟨by rw [hab], hxy⟩

theorem zeroPadC_length (w : ℕ) (cs : List Char) (h : cs.length ≤ w) :
    (zeroPadC w cs).length = w := by
  rw [zeroPadC, List.length_append, List.length_replicate]
  omega

theorem decChars_length_le_four (n : ℕ) (h : n < 10000) :
    (decChars n).length ≤ 4 := by
  by_cases h0 : n = 0
  · subst h0
    norm_num [decChars]
  · rw [decChars, if_neg h0, List.length_map, List.length_reverse]
    apply decDigitsAux_length_le n n 4 (le_refl n)
    norm_num
    exact h

theorem pad4_digits (i : ℕ) : ∀ c ∈ zeroPadC 4 (decChars i), IsDigitCh c :=
  zeroPadC_digits 4 (decChars i) (decChars_digits i)

theorem sep_not_mem_pad4 (i : ℕ) : Char.ofNat 95 ∉ zeroPadC 4 (decChars i) := by
  intro hmem
  exact isDigitCh_ne_sep (pad4_digits i _ hmem) rfl

theorem outputPath_inj_index (dir : String) (i j : ℕ) (s t : ℚ)
    (h : outputPath dir i s = outputPath dir j t) : i = j := by
  have hdata : dir.data ++ Char.ofNat 47 :: filenameChars i s
      = dir.data ++ Char.ofNat 47 :: filenameChars j t := congrArg String.data h
  have htail := List.append_cancel_left hdata
  have h2 : filenameChars i s = filenameChars j t := by
    injection htail
  rw [filenameChars, filenameChars] at h2
  obtain ⟨hpad, _⟩ := append_sep_cancel _ _ _ _ (Char.ofNat 95)
    (sep_not_mem_pad4 i) (sep_not_mem_pad4 j) h2
  have hv : valBE (zeroPadC 4 (decChars i)) = valBE (zeroPadC 4 (decChars j)) := by
    rw [hpad]
  rw [valBE_zeroPadC, valBE_zeroPadC, valBE_decChars, valBE_decChars] at hv
  exact hv

theorem outputPath_lt_of_index_lt (dir : String) (i j : ℕ) (s t : ℚ)
    (hij : i < j) (hj : j < 10000) :
    outputPath dir i s < outputPath dir j t := by
  rw [String.lt_iff_toList_lt]
  show dir.data ++ Char.ofNat 47 :: filenameChars i s
      < dir.data ++ Char.ofNat 47 :: filenameChars j t
  have hleni : (zeroPadC 4 (decChars i)).length = 4 :=
    zeroPadC_length 4 _ (decChars_length_le_four i (lt_trans hij hj))
  have hlenj : (zeroPadC 4 (decChars j)).length = 4 :=
    zeroPadC_length 4 _ (decChars_length_le_four j hj)
  have hlex : List.Lex (· < ·) (filenameChars i s) (filenameChars j t) := by
    rw [filenameChars, filenameChars]
    apply lex_append_of_lex _ _ _ _ (by rw [hleni, hlenj])
    apply lex_of_valBE_lt _ _ (by rw [hleni, hlenj]) (pad4_digits i) (pad4_digits j)
    rw [valBE_zeroPadC, valBE_zeroPadC, valBE_decChars, valBE_decChars]
    exact hij
  exact lex_append_left dir.data _ _ (List.Lex.cons hlex)

/-! ## Render-job builder lemmas (claim C5) -/

theorem buildTasks_length (outputDir voice : String) (instr : Option String) :
    ∀ (segments : List TranscriptSegment) (k : ℕ),
    (buildTasks outputDir voice instr k segments).length = segments.length := by
  intro segments
  induction segments with
  | nil => intro k; rfl
  | cons s rest ih =>
    intro k
    show (buildTasks outputDir voice instr (k + 1) rest).length + 1 = rest.length + 1
    rw [ih (k + 1)]

theorem buildTasks_get (outputDir voice : String) (instr : Option String) :
    ∀ (segments : List TranscriptSegment) (k i : ℕ),
    (buildTasks outputDir voice instr k segments)[i]?
      = (segments[i]?).map (fun s =>
          { segment := s, instruction := instr, voice := voice,
            output_path := outputPath outputDir (k + i) s.start }) := by
  intro segments
  induction segments with
  | nil => intro k i; simp [buildTasks]
  | cons s rest ih =>
    intro k i
    cases i with
    | zero => simp [buildTasks]
    | succ m =>
      have hunfold : buildTasks outputDir voice instr k (s :: rest)
          = { segment := s, instruction := instr, voice := voice,
              output_path := outputPath outputDir k s.start }
            :: buildTasks outputDir voice instr (k + 1) rest := rfl
      rw [hunfold, List.getElem?_cons_succ, ih (k + 1) m]
      have harith : k + 1 + m = k + (m + 1) := by omega
      rw [harith, List.getElem?_cons_succ]

/-! ## Claim C5: one job per segment, distinct paths, lexicographic order -/

/-- C5 counterexample: with 10001 segments, the job at index 9999 has path
`out/9999_…` and the job at index 10000 has path `out/10000_…`; since the
index field is zero-padded to only four digits, `out/9999_…` is *not*
lexicographically below `out/10000_…` (`'9' > '1'`), so the paths of this
task list do not sort in segment order. -/
theorem C5_counterexample :
    (create_render_tasks (List.replicate 10001 seg0) wDir wVoice none none).length = 10001
    ∧ ((create_render_tasks (List.replicate 10001 seg0) wDir wVoice none none)[9999]?).map
        (fun t => t.output_path) = some (outputPath wDir 9999 0)
    ∧ ((create_render_tasks (List.replicate 10001 seg0) wDir wVoice none none)[10000]?).map
        (fun t => t.output_path) = some (outputPath wDir 10000 0)
    ∧ ¬ outputPath wDir 9999 0 < outputPath wDir 10000 0 := by
  refine ⟨?_, ?_, ?_, ?_⟩
  · rw [create_render_tasks, buildTasks_length, List.length_replicate]
  · rw [create_render_tasks, buildTasks_get, List.getElem?_replicate, if_pos (by norm_num)]
    simp [seg0]
  · rw [create_render_tasks, buildTasks_get, List.getElem?_replicate, if_pos (by norm_num)]
    simp [seg0]
  · have h1 : zeroPadC 4 (decChars 10000)
        = [digitChar 1, digitChar 0, digitChar 0, digitChar 0, digitChar 0] := by decide
    have h2 : zeroPadC 4 (decChars 9999)
        = [digitChar 9, digitChar 9, digitChar 9, digitChar 9] := by decide
    have hrev : List.Lex (· < ·)
        (wDir.data ++ Char.ofNat 47 :: filenameChars 10000 0)
        (wDir.data ++ Char.ofNat 47 :: filenameChars 9999 0) := by
      apply lex_append_left
      apply List.Lex.cons
      rw [filenameChars, filenameChars, h1, h2]
      simp only [List.cons_append, List.nil_append]
      exact List.Lex.rel (by decide)
    intro hlt
    rw [String.lt_iff_toList_lt] at hlt
    exact asymm hrev hlt

/-- C5 (amended): for every segment list, the builder yields exactly one
job per segment in the same order (the `i`-th job carries the `i`-th
segment, the applied instruction, the voice and the deterministic path),
all output paths are pairwise distinct, and — provided the list has at
most 10000 segments, so the zero-padded four-digit index field is not
outgrown — the paths sort lexicographically in segment order. -/
theorem C5_render_jobs (segments : List TranscriptSegment) (outputDir voice : String)
    (instructionOverride configured : Option String) :
    (create_render_tasks segments outputDir voice instructionOverride configured).length
      = segments.length
    ∧ (∀ i : ℕ,
        (create_render_tasks segments outputDir voice instructionOverride configured)[i]?
          = (segments[i]?).map (fun s =>
              { segment := s,
                instruction := appliedInstruction instructionOverride configured,
                voice := voice, output_path := outputPath outputDir i s.start }))
    ∧ (∀ (i j : ℕ) (ti tj : AudioRenderTask),
        (create_render_tasks segments outputDir voice instructionOverride configured)[i]?
          = some ti →
        (create_render_tasks segments outputDir voice instructionOverride configured)[j]?
          = some tj →
        i ≠ j → ti.output_path ≠ tj.output_path)
    ∧ (segments.length ≤ 10000 →
        ∀ (i j : ℕ) (ti tj : AudioRenderTask),
        (create_render_tasks segments outputDir voice instructionOverride configured)[i]?
          = some ti →
        (create_render_tasks segments outputDir voice instructionOverride configured)[j]?
          = some tj →
        i < j → ti.output_path < tj.output_path) := by
  have hget : ∀ i : ℕ,
      (create_render_tasks segments outputDir voice instructionOverride configured)[i]?
        = (segments[i]?).map (fun s =>
            { segment := s,
              instruction := appliedInstruction instructionOverride configured,
              voice := voice, output_path := outputPath outputDir i s.start }) := by
    intro i
    rw [create_render_tasks, buildTasks_get]
    simp
  have hsome : ∀ (i : ℕ) (ti : AudioRenderTask),
      (create_render_tasks segments outputDir voice instructionOverride configured)[i]?
        = some ti →
      ∃ si, segments[i]? = some si
        ∧ ti.output_path = outputPath outputDir i si.start
        ∧ i < segments.length := by
    intro i ti hti
    rw [hget i] at hti
    obtain ⟨si, hsi, hf⟩ := Option.map_eq_some'.mp hti
    refine ⟨si, hsi, ?_, ?_⟩
    · rw [← hf]
    · by_contra hcon
      rw [List.getElem?_eq_none (le_of_not_lt hcon)] at hsi
      cases hsi
  refine ⟨?_, hget, ?_, ?_⟩
  · rw [create_render_tasks, buildTasks_length]
  · intro i j ti tj hti htj hij heq
    obtain ⟨si, _, hpi, _⟩ := hsome i ti hti
    obtain ⟨sj, _, hpj, _⟩ := hsome j tj htj
    rw [hpi, hpj] at heq
    exact hij (outputPath_inj_index outputDir i j si.start sj.start heq)
  · intro hlen i j ti tj hti htj hij
    obtain ⟨si, _, hpi, _⟩ := hsome i ti hti
    obtain ⟨sj, _, hpj, hjlt⟩ := hsome j tj htj
    rw [hpi, hpj]
    exact outputPath_lt_of_index_lt outputDir i j si.start sj.start hij
      (lt_of_lt_of_le hjlt hlen)

/-- C5 witness: with the two segments `segA`, `segB`, the two job paths are
distinct and lexicographically ordered. -/
theorem C5_witness :
    outputPath wDir 0 segA.start ≠ outputPath wDir 1 segB.start
    ∧ outputPath wDir 0 segA.start < outputPath wDir 1 segB.start := by
  have h := C5_render_jobs [segA, segB] wDir wVoice none none
  have h0 : (create_render_tasks [segA, segB] wDir wVoice none none)[0]?
      = some { segment := segA, instruction := appliedInstruction none none,
               voice := wVoice, output_path := outputPath wDir 0 segA.start } := by
    rw [h.2.1 0]
    rfl
  have h1 : (create_render_tasks [segA, segB] wDir wVoice none none)[1]?
      = some { segment := segB, instruction := appliedInstruction none none,
               voice := wVoice, output_path := outputPath wDir 1 segB.start } := by
    rw [h.2.1 1]
    rfl
  exact ⟨h.2.2.1 0 1 _ _ h0 h1 (by norm_num),
    h.2.2.2 (by norm_num) 0 1 _ _ h0 h1 (by norm_num)⟩
